import Mathlib

/-!
Shallow embedding of `src/iqlFunctions.js`: the memoizing cache wrapper
(`memoize` with its inner `memoized`, `get`, `set`, `remove`, `flush`,
`limit`, `expire`) and the Insight attribute-resolution pipeline
(`getObjectTypeIdFromName`, `getObjectTypeAttributeId`, `getLazyIQL`,
`_LAZYIQL`, `_LAZYIQL_LIST`).

Times are naturals (`Date.now()`), while the configurable `_limit` and
`_time` settings are integers (any JavaScript number may be assigned to
them).  The in-memory `Map` is modelled as an association list in
insertion order, matching the iteration order the eviction loop relies
on.  The external `CacheService` blob is carried in the state as `store`.
-/

namespace IqlFunctions

/-- JavaScript values relevant to the cache wrapper: stored results are
arbitrary values and the hit/miss branch `get(key) || set(key, ...)`
tests their truthiness. -/
inductive JsVal where
  | vundefined
  | vnull
  | vbool (b : Bool)
  | vnum (n : Int)
  | vstr (s : String)
  deriving DecidableEq, Repr

/-- JavaScript truthiness of a `JsVal`. -/
def truthy : JsVal → Bool
  | .vundefined => false
  | .vnull => false
  | .vbool b => b
  | .vnum n => decide (n ≠ 0)
  | .vstr s => decide (s ≠ "")

/-- `typeof v === "number"`. -/
def isNumber : JsVal → Bool
  | .vnum _ => true
  | _ => false

/-- `JSON.stringify` of a single value as it appears inside an argument
array (`undefined` serializes as `null` there). -/
def jsonStringifyVal : JsVal → String
  | .vundefined => "null"
  | .vnull => "null"
  | .vbool b => if b then "true" else "false"
  | .vnum n => toString n
  | .vstr s => "\"" ++ s ++ "\""

/-- `JSON.stringify(args)`: the cache key built in `memoized`
(`const key = JSON.stringify(args)`). -/
def jsonStringifyArgs (args : List JsVal) : String :=
  "[" ++ String.intercalate "," (args.map jsonStringifyVal) ++ "]"

/-- A cache entry `{ value, expire: Date.now() }`: despite its name the
`expire` field stores the insertion timestamp. -/
structure CacheEntry where
  value : JsVal
  expire : Nat
  deriving DecidableEq, Repr

/-- The wrapper state: the in-memory `_cache` Map (association list in
insertion order), the `_limit` and `_time` settings, and the serialized
blob held by the external `CacheService` under the fixed key. -/
structure MemoState where
  cacheMap : List (String × CacheEntry)
  limitVal : Int
  timeVal : Int
  store : List (String × CacheEntry)
  deriving DecidableEq, Repr

/-- `Map.prototype.get` on the association-list model. -/
def mapGet (c : List (String × CacheEntry)) (k : String) : Option CacheEntry :=
  (c.find? (fun p => p.1 = k)).map Prod.snd

/-- `Map.prototype.set`: replace in place when the key is present
(preserving insertion-order position), otherwise append. -/
def mapSet : List (String × CacheEntry) → String → CacheEntry →
    List (String × CacheEntry)
  | [], k, v => [(k, v)]
  | p :: rest, k, v => if p.1 = k then (k, v) :: rest else p :: mapSet rest k v

/-- `Map.prototype.delete`. -/
def mapDelete (c : List (String × CacheEntry)) (k : String) :
    List (String × CacheEntry) :=
  c.filter (fun p => p.1 ≠ k)

/-- Wrapper construction (`memoize`): the serialized blob is read from
`CacheService` once and parsed into `_cache`; `_limit` defaults to 1000
and `_time` to `1000*60*60*24` milliseconds. -/
def memoizeInit (blob : List (String × CacheEntry)) : MemoState :=
  { cacheMap := blob
    limitVal := 1000
    timeVal := 1000 * 60 * 60 * 24
    store := blob }

/-- The eviction loop at the top of `set`: repeatedly examine the oldest
remaining entry; while one exists and the live size exceeds `_limit` or
that entry is expired (`entry.expire + _time < date`), remove it;
otherwise stop. -/
def evictLoop (limit time : Int) (date : Nat) :
    List (String × CacheEntry) → List (String × CacheEntry)
  | [] => []
  | e :: rest =>
      if ((e :: rest).length : Int) > limit ∨ (e.2.expire : Int) + time < (date : Int) then
        evictLoop limit time date rest
      else
        e :: rest

/-- `set(key, value)`: run the eviction loop, insert the new entry with
the current timestamp, persist the whole cache to `CacheService`
(`cacheServicePut`), and return the value. -/
def setOp (st : MemoState) (key : String) (value : JsVal) (date : Nat) :
    MemoState × JsVal :=
  let c1 := evictLoop st.limitVal st.timeVal date st.cacheMap
  let c2 := mapSet c1 key ⟨value, date⟩
  ({ st with cacheMap := c2, store := c2 }, value)

/-- `get(key)`: return the stored value when the entry is unexpired
(`entry.expire + _time > Date.now()`); remove an expired entry (and
persist) and fall through to `undefined`; return `undefined` on absence. -/
def getOp (st : MemoState) (key : String) (now : Nat) : MemoState × JsVal :=
  match mapGet st.cacheMap key with
  | some entry =>
      if (entry.expire : Int) + st.timeVal > (now : Int) then
        (st, entry.value)
      else
        let c := mapDelete st.cacheMap key
        ({ st with cacheMap := c, store := c }, .vundefined)
  | none => (st, .vundefined)

/-- `remove(key)`: delete the entry and persist the whole cache. -/
def removeOp (st : MemoState) (key : String) : MemoState :=
  let c := mapDelete st.cacheMap key
  { st with cacheMap := c, store := c }

/-- `memoized.flush()`: clear the in-memory cache.  The source does not
write the cleared cache back to `CacheService`. -/
def flushOp (st : MemoState) : MemoState :=
  { st with cacheMap := [] }

/-- `memoized.limit(limit)`: throw a `TypeError` (flag `true`) on a
non-number, leaving the setting unchanged; otherwise update `_limit`. -/
def limitOp (st : MemoState) (x : JsVal) : MemoState × Bool :=
  match x with
  | .vnum n => ({ st with limitVal := n }, false)
  | _ => (st, true)

/-- `memoized.expire(time)`: throw a `TypeError` (flag `true`) on a
non-number, leaving the setting unchanged; otherwise update `_time`. -/
def expireOp (st : MemoState) (x : JsVal) : MemoState × Bool :=
  match x with
  | .vnum n => ({ st with timeVal := n }, false)
  | _ => (st, true)

/-- One call of `memoized(...args)`:
`return get(key) || set(key, fn.apply(this, args))`.  The final `Bool`
records whether the underlying `fn` was invoked. -/
def memoizedCall (st : MemoState) (fn : List JsVal → JsVal)
    (args : List JsVal) (now : Nat) : MemoState × JsVal × Bool :=
  let key := jsonStringifyArgs args
  let r := getOp st key now
  if truthy r.2 then
    (r.1, r.2, false)
  else
    let s := setOp r.1 key (fn args) now
    (s.1, s.2, true)

/-- The argument a caller hands to `memoize`: either a function or some
other JavaScript value (`fn instanceof Function` decides which). -/
inductive JsArg where
  | jsfun (f : List JsVal → JsVal)
  | jsval (v : JsVal)

/-- The tail of `memoize`: return the wrapper state when the argument is
a function, otherwise throw a `TypeError`. -/
def memoizeCheck (blob : List (String × CacheEntry)) : JsArg → Except Unit MemoState
  | .jsfun _ => .ok (memoizeInit blob)
  | .jsval _ => .error ()

/-- One element of the `objectschema/{id}/objecttypes` response. -/
structure ObjectType where
  name : String
  id : Nat
  deriving DecidableEq, Repr

/-- One element of the `objecttype/{id}/attributes` response. -/
structure TypeAttr where
  name : String
  id : Nat
  deriving DecidableEq, Repr

/-- One element of an attribute's `objectAttributeValues` array. -/
structure AttrValue where
  displayValue : String
  deriving DecidableEq, Repr

/-- One element of an object's `attributes` array, as parsed from JSON:
`objectTypeAttributeId` is `none` when the field is absent (the
`"objectTypeAttributeId" in attribute` test fails) and `some w` when
present, where `w = none` models a JSON `null` value and `w = some n` a
numeric id. -/
structure InsightAttribute where
  objectTypeAttributeId : Option (Option Nat)
  objectAttributeValues : List AttrValue
  deriving DecidableEq, Repr

/-- One element of the IQL search response's `objectEntries` array. -/
structure InsightObject where
  attributes : List InsightAttribute
  deriving DecidableEq, Repr

/-- `getObjectTypeIdFromName(name, object_schema_id)`, parameterized by
the fetched object-type list instead of the network call: linear scan
for a name match, `null` (`none`) when absent. -/
def getObjectTypeIdFromName (name : String) (data : List ObjectType) :
    Option Nat :=
  (data.find? (fun t => t.name = name)).map ObjectType.id

/-- `getObjectTypeAttributeId(name, object_name, object_schema_id)`,
parameterized by the fetched attribute list of the resolved object type:
linear scan for a name match, `null` (`none`) when absent. -/
def getObjectTypeAttributeId (name : String) (data : List TypeAttr) :
    Option Nat :=
  (data.find? (fun a => a.name = name)).map TypeAttr.id

/-- The inner loop of `getLazyIQL` over one object's `attributes` array:
when the field is present and loosely equal (`==`) to the resolved id,
push `attribute["objectAttributeValues"][0]["displayValue"]`; indexing
`[0]` of an empty array yields `undefined` and the subsequent property
access throws a `TypeError` (modelled as `Except.error`). -/
def pushMatches (rid : Option Nat) :
    List InsightAttribute → List String → Except String (List String)
  | [], acc => .ok acc
  | a :: rest, acc =>
      match a.objectTypeAttributeId with
      | some v =>
          if v = rid then
            match a.objectAttributeValues.head? with
            | some av => pushMatches rid rest (acc ++ [av.displayValue])
            | none => .error "TypeError"
          else pushMatches rid rest acc
      | none => pushMatches rid rest acc

/-- The outer loop of `getLazyIQL` over `objectEntries`. -/
def getLazyIQLResults (rid : Option Nat) :
    List InsightObject → List String → Except String (List String)
  | [], acc => .ok acc
  | o :: rest, acc =>
      match pushMatches rid o.attributes acc with
      | .ok acc2 => getLazyIQLResults rid rest acc2
      | .error e => .error e

/-- `getLazyIQL(iql_search, attribute, object_name, object_schema_id)`,
parameterized by the fetched data: the attribute list of the resolved
object type and the `objectEntries` of the IQL search response. -/
def getLazyIQL (attributeName : String) (attrData : List TypeAttr)
    (entries : List InsightObject) : Except String (List String) :=
  getLazyIQLResults (getObjectTypeAttributeId attributeName attrData) entries []

/-- `_LAZYIQL(iql_search, attribute, object_name, object_schema_id)`:
the body calls `getLazyIQL(iql_search, attribute)` — the last two
parameters are not forwarded, so inside `getLazyIQL` they are
`undefined` — and takes element `[0]` of the returned array (an empty
array yields `undefined`).  `g` stands for `getLazyIQL` as a function of
its four JavaScript parameters. -/
def underscoreLAZYIQL (g : JsVal → JsVal → JsVal → JsVal → List String)
    (iqlSearch attributeName objectName objectSchemaId : JsVal) : JsVal :=
  match (g iqlSearch attributeName .vundefined .vundefined).head? with
  | some s => .vstr s
  | none => .vundefined

/-- `_LAZYIQL_LIST(iql_search, attribute, object_name, object_schema_id)`:
again only the first two parameters are forwarded to `getLazyIQL`, and
the result array is joined with `";"` (an empty array joins to `""`). -/
def underscoreLAZYIQL_LIST (g : JsVal → JsVal → JsVal → JsVal → List String)
    (iqlSearch attributeName objectName objectSchemaId : JsVal) : JsVal :=
  .vstr (String.intercalate ";" (g iqlSearch attributeName .vundefined .vundefined))

/-- `_LAZYIQL` as the `fn` handed to `memoize`: `memoized` forwards its
argument list and JavaScript fills missing parameters with `undefined`. -/
def lazyIqlFn (g : JsVal → JsVal → JsVal → JsVal → List String)
    (args : List JsVal) : JsVal :=
  underscoreLAZYIQL g (args.getD 0 .vundefined) (args.getD 1 .vundefined)
    (args.getD 2 .vundefined) (args.getD 3 .vundefined)

/-- `_LAZYIQL_LIST` as the `fn` handed to `memoize`. -/
def lazyIqlListFn (g : JsVal → JsVal → JsVal → JsVal → List String)
    (args : List JsVal) : JsVal :=
  underscoreLAZYIQL_LIST g (args.getD 0 .vundefined) (args.getD 1 .vundefined)
    (args.getD 2 .vundefined) (args.getD 3 .vundefined)

/-! ### Helper lemmas -/

theorem mapGet_mapSet_self (c : List (String × CacheEntry)) (k : String)
    (v : CacheEntry) : mapGet (mapSet c k v) k = some v := by
  induction c with
  | nil => simp [mapSet, mapGet]
  | cons p rest ih =>
      by_cases hp : p.1 = k
      · simp [mapSet, hp, mapGet]
      · simpa [mapSet, hp, mapGet, List.find?_cons_of_neg] using ih

theorem memoizedCall_invokes_of_falsy (st : MemoState)
    (fn : List JsVal → JsVal) (args : List JsVal) (now : Nat)
    (h : ∀ e, mapGet st.cacheMap (jsonStringifyArgs args) = some e →
      truthy e.value = false) :
    (memoizedCall st fn args now).2.2 = true := by
  unfold memoizedCall getOp
  cases hm : mapGet st.cacheMap (jsonStringifyArgs args) with
  | none => simp [hm, truthy]
  | some e =>
      by_cases hlive : (e.expire : Int) + st.timeVal > (now : Int)
      · simp [hm, hlive, h e hm]
      · simp [hm, hlive, truthy]

theorem memoizedCall_stores (st : MemoState) (fn : List JsVal → JsVal)
    (args : List JsVal) (now : Nat)
    (hinv : (memoizedCall st fn args now).2.2 = true) :
    mapGet (memoizedCall st fn args now).1.cacheMap (jsonStringifyArgs args)
      = some ⟨fn args, now⟩ := by
  unfold memoizedCall at hinv ⊢
  by_cases ht : truthy (getOp st (jsonStringifyArgs args) now).2 = true
  · simp [ht] at hinv
  · simp only [Bool.not_eq_true] at ht
    simp [ht, setOp, mapGet_mapSet_self]

/-! ### Claim theorems -/

/-- Claim C4, counterexample: `flush()` clears the in-memory cache but
does not overwrite the external store — on a state holding one entry,
after `flush()` the in-memory cache is empty while the persisted blob
still holds the entry, so the store was not overwritten after this
mutation. -/
theorem C4_counterexample :
    (flushOp ⟨[("k", ⟨.vnum 1, 0⟩)], 1000, 86400000,
        [("k", ⟨.vnum 1, 0⟩)]⟩).cacheMap = [] ∧
    (flushOp ⟨[("k", ⟨.vnum 1, 0⟩)], 1000, 86400000,
        [("k", ⟨.vnum 1, 0⟩)]⟩).store = [("k", ⟨.vnum 1, 0⟩)] ∧
    (flushOp ⟨[("k", ⟨.vnum 1, 0⟩)], 1000, 86400000,
        [("k", ⟨.vnum 1, 0⟩)]⟩).store ≠ [] := by
  refine ⟨rfl, rfl, by decide⟩

/-- Claim C4, amended: the external store is read once at wrapper
construction (hence at the start of each script invocation), and is
overwritten after every insertion (`set`) and every removal (`remove`),
but `flush()` clears only the in-memory cache and performs no write. -/
theorem C4_amended (st : MemoState) (k : String) (v : JsVal) (d : Nat)
    (blob : List (String × CacheEntry)) :
    (setOp st k v d).1.store = (setOp st k v d).1.cacheMap ∧
    (removeOp st k).store = (removeOp st k).cacheMap ∧
    (flushOp st).cacheMap = [] ∧ (flushOp st).store = st.store ∧
    (memoizeInit blob).cacheMap = blob ∧ (memoizeInit blob).store = blob :=
  ⟨rfl, rfl, rfl, rfl, rfl, rfl⟩

/-- Claim C7: configuring `limit` or `expire` with a value whose type is
not number throws a `TypeError` and leaves the state (in particular the
respective setting) unchanged, and `memoize` applied to a non-function
value throws a `TypeError` instead of returning a wrapper. -/
theorem C7_config_type_errors (st : MemoState) (x : JsVal)
    (hx : isNumber x = false) (blob : List (String × CacheEntry))
    (f : JsVal) :
    limitOp st x = (st, true) ∧ expireOp st x = (st, true) ∧
    memoizeCheck blob (.jsval f) = .error () := by
  cases x <;> simp_all [limitOp, expireOp, isNumber, memoizeCheck]

/-- Witness for C7 at a concrete non-number argument. -/
theorem C7_config_type_errors_witness :
    limitOp (memoizeInit []) .vnull = (memoizeInit [], true) ∧
    expireOp (memoizeInit []) .vnull = (memoizeInit [], true) ∧
    memoizeCheck [] (.jsval (.vstr "42")) = .error () :=
  C7_config_type_errors (memoizeInit []) .vnull rfl [] (.vstr "42")

/-- Claim C2: `_LAZYIQL` and `_LAZYIQL_LIST` call
`getLazyIQL(iql_search, attribute)` without forwarding `object_name` and
`object_schema_id`, so the resolution receives `undefined` for both and
the results are independent of those two arguments — for every
resolution function `g` and all argument values, changing `objectName`
and `schemaId` never changes the result. -/
theorem C2_resolution_ignores_object_and_schema
    (g : JsVal → JsVal → JsVal → JsVal → List String)
    (i a o1 s1 o2 s2 : JsVal) :
    underscoreLAZYIQL g i a o1 s1 = underscoreLAZYIQL g i a o2 s2 ∧
    underscoreLAZYIQL_LIST g i a o1 s1 = underscoreLAZYIQL_LIST g i a o2 s2 :=
  ⟨rfl, rfl⟩

/-- Claim C1, counterexample: with `fn` constantly returning the empty
string, after a first call (which caches `""` at time 0) the entry for
the key exists and is unexpired at time 1, yet the second call still
invokes `fn`, because `get(key) || set(key, fn(...))` treats the falsy
cached value as a miss. -/
theorem C1_counterexample :
    mapGet (memoizedCall (memoizeInit []) (fun _ => .vstr "") [] 0).1.cacheMap
        (jsonStringifyArgs []) = some ⟨.vstr "", 0⟩ ∧
    ((0 : Int) + (memoizedCall (memoizeInit [])
        (fun _ => .vstr "") [] 0).1.timeVal > (1 : Int)) ∧
    (memoizedCall (memoizedCall (memoizeInit []) (fun _ => .vstr "") [] 0).1
        (fun _ => .vstr "") [] 1).2.2 = true := by
  refine ⟨rfl, by decide, rfl⟩

/-- Claim C1, amended: the second call within the TTL is a pure cache
hit that does not invoke `fn`, provided the cached value is truthy; the
stored value is returned and the state is unchanged. -/
theorem C1_amended (st : MemoState) (fn : List JsVal → JsVal)
    (args : List JsVal) (now : Nat) (e : CacheEntry)
    (he : mapGet st.cacheMap (jsonStringifyArgs args) = some e)
    (hlive : (e.expire : Int) + st.timeVal > (now : Int))
    (htruthy : truthy e.value = true) :
    memoizedCall st fn args now = (st, e.value, false) := by
  unfold memoizedCall getOp
  simp [he, hlive, htruthy]

/-- Witness for C1 amended: a concrete unexpired truthy entry is served
without invoking `fn`. -/
theorem C1_amended_witness :
    memoizedCall ⟨[("[]", ⟨.vnum 5, 0⟩)], 1000, 86400000,
        [("[]", ⟨.vnum 5, 0⟩)]⟩ (fun _ => .vnum 9) [] 1
      = (⟨[("[]", ⟨.vnum 5, 0⟩)], 1000, 86400000,
        [("[]", ⟨.vnum 5, 0⟩)]⟩, .vnum 5, false) :=
  C1_amended _ _ [] 1 ⟨.vnum 5, 0⟩ (by decide) (by decide) (by decide)

/-- Claim C5: when the TTL has elapsed (`insertedAt + ttl` is not in the
future), a call with identical arguments finds the expired entry,
removes it (`get` returns `undefined`, an eviction rather than a hit),
and invokes the underlying `fn` again. -/
theorem C5_expired_entry_reinvokes (st : MemoState)
    (fn : List JsVal → JsVal) (args : List JsVal) (now : Nat)
    (e : CacheEntry)
    (he : mapGet st.cacheMap (jsonStringifyArgs args) = some e)
    (hexp : (e.expire : Int) + st.timeVal ≤ (now : Int)) :
    (getOp st (jsonStringifyArgs args) now).2 = .vundefined ∧
    (getOp st (jsonStringifyArgs args) now).1.cacheMap
      = mapDelete st.cacheMap (jsonStringifyArgs args) ∧
    (memoizedCall st fn args now).2.2 = true := by
  have hlive : ¬ ((e.expire : Int) + st.timeVal > (now : Int)) := by omega
  refine ⟨by simp [getOp, he, hlive], by simp [getOp, he, hlive], ?_⟩
  unfold memoizedCall getOp
  simp [he, hlive, truthy]

/-- Witness for C5: a concrete entry inserted at time 0 with the default
TTL is expired at time 86400000 and the call re-invokes `fn`. -/
theorem C5_expired_entry_reinvokes_witness :
    (getOp ⟨[("[]", ⟨.vnum 5, 0⟩)], 1000, 86400000,
        [("[]", ⟨.vnum 5, 0⟩)]⟩ (jsonStringifyArgs []) 86400000).2 = .vundefined ∧
    (getOp ⟨[("[]", ⟨.vnum 5, 0⟩)], 1000, 86400000,
        [("[]", ⟨.vnum 5, 0⟩)]⟩ (jsonStringifyArgs []) 86400000).1.cacheMap
      = mapDelete [("[]", ⟨.vnum 5, 0⟩)] (jsonStringifyArgs []) ∧
    (memoizedCall ⟨[("[]", ⟨.vnum 5, 0⟩)], 1000, 86400000,
        [("[]", ⟨.vnum 5, 0⟩)]⟩ (fun _ => .vnum 7) [] 86400000).2.2 = true :=
  C5_expired_entry_reinvokes _ (fun _ => .vnum 7) [] 86400000 ⟨.vnum 5, 0⟩
    (by decide) (by decide)

/-- Claim C9: expiry is decided at read time against the currently
configured TTL.  For one and the same entry and the same clock reading,
after `memoized.expire(t1)` with `insertedAt + t1 ≤ now` the lookup
misses (the entry is expired), while after `memoized.expire(t2)` with
`insertedAt + t2 > now` the lookup returns the stored value — so
re-configuring the TTL retroactively shrinks or extends the remaining
lifetime of every already-cached entry. -/
theorem C9_expiry_read_time (st : MemoState) (key : String)
    (e : CacheEntry) (now : Nat) (t1 t2 : Int)
    (he : mapGet st.cacheMap key = some e)
    (h1 : (e.expire : Int) + t1 ≤ (now : Int))
    (h2 : (e.expire : Int) + t2 > (now : Int)) :
    (getOp (expireOp st (.vnum t1)).1 key now).2 = .vundefined ∧
    (getOp (expireOp st (.vnum t2)).1 key now).2 = e.value := by
  have hn : ¬ ((e.expire : Int) + t1 > (now : Int)) := by omega
  exact ⟨by simp [expireOp, getOp, he, hn], by simp [expireOp, getOp, he, h2]⟩

/-- Witness for C9: an entry inserted at time 10, read at time 15:
expired under TTL 5, live under TTL 6. -/
theorem C9_expiry_read_time_witness :
    (getOp (expireOp ⟨[("k", ⟨.vnum 3, 10⟩)], 1000, 86400000,
        [("k", ⟨.vnum 3, 10⟩)]⟩ (.vnum 5)).1 "k" 15).2 = .vundefined ∧
    (getOp (expireOp ⟨[("k", ⟨.vnum 3, 10⟩)], 1000, 86400000,
        [("k", ⟨.vnum 3, 10⟩)]⟩ (.vnum 6)).1 "k" 15).2 = .vnum 3 :=
  C9_expiry_read_time _ "k" ⟨.vnum 3, 10⟩ 15 5 6 (by decide) (by decide)
    (by decide)

theorem evictLoop_isSuffix (l t : Int) (d : Nat)
    (c : List (String × CacheEntry)) : List.IsSuffix (evictLoop l t d c) c := by
  induction c with
  | nil => exact List.nil_suffix
  | cons e rest ih =>
      unfold evictLoop
      by_cases hc : ((e :: rest).length : Int) > l ∨
          (e.2.expire : Int) + t < (d : Int)
      · rw [if_pos hc]
        exact ih.trans (List.suffix_cons e rest)
      · rw [if_neg hc]

theorem evictLoop_length_le (l t : Int) (d : Nat)
    (c : List (String × CacheEntry)) (hl : 0 ≤ l) :
    ((evictLoop l t d c).length : Int) ≤ l := by
  induction c with
  | nil => simpa [evictLoop] using hl
  | cons e rest ih =>
      unfold evictLoop
      by_cases hc : ((e :: rest).length : Int) > l ∨
          (e.2.expire : Int) + t < (d : Int)
      · rw [if_pos hc]; exact ih
      · rw [if_neg hc]
        push_neg at hc
        exact hc.1

theorem mapSet_length_le (c : List (String × CacheEntry)) (k : String)
    (v : CacheEntry) : (mapSet c k v).length ≤ c.length + 1 := by
  induction c with
  | nil => simp [mapSet]
  | cons p rest ih =>
      unfold mapSet
      by_cases hp : p.1 = k
      · simp [hp]
      · rw [if_neg hp]
        simp only [List.length_cons]
        omega

/-- Claim C3, counterexample: with `limit` set to 1, inserting two
distinct argument lists (both unexpired) leaves 2 retained entries after
the second insertion — the eviction loop stops once the size no longer
exceeds the limit and only then inserts, so size ≤ limit fails. -/
theorem C3_counterexample :
    (memoizedCall (memoizedCall (limitOp (memoizeInit []) (.vnum 1)).1
        (fun _ => .vnum 7) [.vnum 1] 0).1
        (fun _ => .vnum 7) [.vnum 2] 0).1.cacheMap.length = 2 ∧
    (memoizedCall (memoizedCall (limitOp (memoizeInit []) (.vnum 1)).1
        (fun _ => .vnum 7) [.vnum 1] 0).1
        (fun _ => .vnum 7) [.vnum 2] 0).1.limitVal = 1 ∧
    ¬ (((memoizedCall (memoizedCall (limitOp (memoizeInit []) (.vnum 1)).1
        (fun _ => .vnum 7) [.vnum 1] 0).1
        (fun _ => .vnum 7) [.vnum 2] 0).1.cacheMap.length : Int)
      ≤ (memoizedCall (memoizedCall (limitOp (memoizeInit []) (.vnum 1)).1
        (fun _ => .vnum 7) [.vnum 1] 0).1
        (fun _ => .vnum 7) [.vnum 2] 0).1.limitVal) := by
  refine ⟨rfl, rfl, by decide⟩

/-- Claim C3, amended: eviction removes the oldest-inserted entries
first (the survivors of the eviction loop are a suffix of the insertion
order), and for a nonnegative limit the number of retained entries after
each insertion is at most `limit + 1` (the loop evicts only while the
size exceeds the limit, and the new entry is inserted afterwards). -/
theorem C3_amended (st : MemoState) (k : String) (v : JsVal) (d : Nat)
    (hl : 0 ≤ st.limitVal) :
    List.IsSuffix (evictLoop st.limitVal st.timeVal d st.cacheMap)
      st.cacheMap ∧
    (((setOp st k v d).1.cacheMap.length : Int) ≤ st.limitVal + 1) := by
  refine ⟨evictLoop_isSuffix _ _ _ _, ?_⟩
  have h1 := evictLoop_length_le st.limitVal st.timeVal d st.cacheMap hl
  have h2 := mapSet_length_le (evictLoop st.limitVal st.timeVal d st.cacheMap)
    k ⟨v, d⟩
  simp only [setOp]
  omega

/-- Witness for C3 amended at the default limit 1000. -/
theorem C3_amended_witness :
    (0 : Int) ≤ (memoizeInit []).limitVal ∧
    (List.IsSuffix (evictLoop (memoizeInit []).limitVal
        (memoizeInit []).timeVal 0 (memoizeInit []).cacheMap)
      (memoizeInit []).cacheMap ∧
    (((setOp (memoizeInit []) "k" (.vnum 1) 0).1.cacheMap.length : Int)
      ≤ (memoizeInit []).limitVal + 1)) :=
  ⟨by decide, C3_amended (memoizeInit []) "k" (.vnum 1) 0 (by decide)⟩

theorem pushMatches_no_null_match (attrs : List InsightAttribute)
    (acc : List String)
    (h : ∀ a ∈ attrs, a.objectTypeAttributeId ≠ some none) :
    pushMatches none attrs acc = .ok acc := by
  induction attrs generalizing acc with
  | nil => rfl
  | cons a rest ih =>
      have hrest : ∀ b ∈ rest, b.objectTypeAttributeId ≠ some none :=
        fun b hb => h b (List.mem_cons_of_mem a hb)
      cases hv : a.objectTypeAttributeId with
      | none => simpa [pushMatches, hv] using ih acc hrest
      | some v =>
          cases v with
          | none => exact absurd hv (h a (List.mem_cons_self a rest))
          | some n => simpa [pushMatches, hv] using ih acc hrest

theorem getLazyIQLResults_no_null_match (entries : List InsightObject)
    (acc : List String)
    (h : ∀ o ∈ entries, ∀ a ∈ o.attributes,
      a.objectTypeAttributeId ≠ some none) :
    getLazyIQLResults none entries acc = .ok acc := by
  induction entries generalizing acc with
  | nil => rfl
  | cons o rest ih =>
      have hpm := pushMatches_no_null_match o.attributes acc
        (h o (List.mem_cons_self o rest))
      have hrest : ∀ o2 ∈ rest, ∀ a ∈ o2.attributes,
          a.objectTypeAttributeId ≠ some none :=
        fun o2 ho2 => h o2 (List.mem_cons_of_mem o ho2)
      simpa [getLazyIQLResults, hpm] using ih acc hrest

/-- Claim C6: when the attribute name is absent from the fetched
attribute list, `getObjectTypeAttributeId` returns `null`, and
`getLazyIQL` with that `null` id returns the empty sequence rather than
failing, provided no object attribute in the search result carries an
`objectTypeAttributeId` equal to `null`. -/
theorem C6_absent_attribute (attrName : String) (attrData : List TypeAttr)
    (entries : List InsightObject)
    (habsent : ∀ t ∈ attrData, t.name ≠ attrName)
    (hnonull : ∀ o ∈ entries, ∀ a ∈ o.attributes,
      a.objectTypeAttributeId ≠ some none) :
    getObjectTypeAttributeId attrName attrData = none ∧
    getLazyIQL attrName attrData entries = .ok [] := by
  have hid : getObjectTypeAttributeId attrName attrData = none := by
    have hf : attrData.find? (fun t => t.name = attrName) = none :=
      List.find?_eq_none.mpr (fun x hx => by simpa using habsent x hx)
    simp [getObjectTypeAttributeId, hf]
  refine ⟨hid, ?_⟩
  unfold getLazyIQL
  rw [hid]
  exact getLazyIQLResults_no_null_match entries [] hnonull

/-- Witness for C6: the name `Missing` is absent from a one-element
attribute list and the only search-result attribute carries a numeric
id, so resolution yields `null` and an empty sequence. -/
theorem C6_absent_attribute_witness :
    getObjectTypeAttributeId "Missing" [⟨"Owner", 5⟩] = none ∧
    getLazyIQL "Missing" [⟨"Owner", 5⟩]
      [⟨[⟨some (some 5), [⟨"Alice"⟩]⟩]⟩] = .ok [] :=
  C6_absent_attribute "Missing" [⟨"Owner", 5⟩]
    [⟨[⟨some (some 5), [⟨"Alice"⟩]⟩]⟩] (by decide) (by decide)

theorem pushMatches_empty_values_error (rid : Option Nat)
    (attrs : List InsightAttribute)
    (h : ∃ a ∈ attrs, a.objectTypeAttributeId = some rid ∧
      a.objectAttributeValues = []) :
    ∀ acc, pushMatches rid attrs acc = .error "TypeError" := by
  induction attrs with
  | nil => exact absurd h (by simp)
  | cons a rest ih =>
      intro acc
      obtain ⟨b, hb, hbad⟩ := h
      cases hv : a.objectTypeAttributeId with
      | none =>
          have hbr : b ∈ rest := by
            rcases List.mem_cons.mp hb with rfl | hm
            · rw [hv] at hbad; exact absurd hbad.1 (by simp)
            · exact hm
          simpa [pushMatches, hv] using ih ⟨b, hbr, hbad⟩ acc
      | some v =>
          by_cases hvr : v = rid
          · cases hhd : a.objectAttributeValues.head? with
            | none => simp [pushMatches, hv, hvr, hhd]
            | some av =>
                have hbr : b ∈ rest := by
                  rcases List.mem_cons.mp hb with rfl | hm
                  · rw [hbad.2] at hhd; exact absurd hhd (by simp)
                  · exact hm
                simpa [pushMatches, hv, hvr, hhd] using
                  ih ⟨b, hbr, hbad⟩ (acc ++ [av.displayValue])
          · have hbr : b ∈ rest := by
              rcases List.mem_cons.mp hb with rfl | hm
              · rw [hv] at hbad
                exact absurd (Option.some.inj hbad.1) hvr
              · exact hm
            simpa [pushMatches, hv, hvr] using ih ⟨b, hbr, hbad⟩ acc

theorem getLazyIQLResults_empty_values_error (rid : Option Nat)
    (entries : List InsightObject)
    (h : ∃ o ∈ entries, ∃ a ∈ o.attributes,
      a.objectTypeAttributeId = some rid ∧ a.objectAttributeValues = []) :
    ∀ acc, ∃ e, getLazyIQLResults rid entries acc = .error e := by
  induction entries with
  | nil => exact absurd h (by simp)
  | cons o rest ih =>
      intro acc
      obtain ⟨o2, ho2, hbad⟩ := h
      rcases List.mem_cons.mp ho2 with rfl | hm
      · have hpm := pushMatches_empty_values_error rid o2.attributes hbad acc
        exact ⟨"TypeError", by simp [getLazyIQLResults, hpm]⟩
      · cases hpm : pushMatches rid o.attributes acc with
        | error e => exact ⟨e, by simp [getLazyIQLResults, hpm]⟩
        | ok acc2 =>
            obtain ⟨e, he⟩ := ih ⟨o2, hm, hbad⟩ acc2
            exact ⟨e, by simp [getLazyIQLResults, hpm, he]⟩

/-- Claim C8: whenever some object in the search result has an attribute
whose `objectTypeAttributeId` matches the resolved id but whose
`objectAttributeValues` array is empty, `getLazyIQL` fails (indexing
element 0 of an empty array and reading `displayValue` from the
resulting `undefined`) rather than skipping the attribute or returning
an empty sequence. -/
theorem C8_empty_values_error (attrName : String) (attrData : List TypeAttr)
    (entries : List InsightObject)
    (h : ∃ o ∈ entries, ∃ a ∈ o.attributes,
      a.objectTypeAttributeId
        = some (getObjectTypeAttributeId attrName attrData) ∧
      a.objectAttributeValues = []) :
    ∃ e, getLazyIQL attrName attrData entries = .error e :=
  getLazyIQLResults_empty_values_error _ entries h []

/-- Witness for C8: the attribute `Owner` resolves to id 5, and the one
matching attribute in the search result has an empty value array. -/
theorem C8_empty_values_error_witness :
    ∃ e, getLazyIQL "Owner" [⟨"Owner", 5⟩] [⟨[⟨some (some 5), []⟩]⟩]
      = .error e :=
  C8_empty_values_error "Owner" [⟨"Owner", 5⟩] [⟨[⟨some (some 5), []⟩]⟩]
    (by decide)

/-- Claim C10: when the attribute resolution yields no values,
`_LAZYIQL` returns `undefined` and `_LAZYIQL_LIST` returns the empty
string; both are falsy, so — as long as the cache holds no truthy value
for the key — the call and every subsequent call with the same
arguments invoke the underlying function again (the cached falsy result
is never served). -/
theorem C10_falsy_results_reinvoke
    (g : JsVal → JsVal → JsVal → JsVal → List String) (i a o s : JsVal)
    (st : MemoState) (now now2 : Nat)
    (hg : g i a .vundefined .vundefined = [])
    (hst : ∀ e, mapGet st.cacheMap (jsonStringifyArgs [i, a, o, s]) = some e →
      truthy e.value = false) :
    lazyIqlFn g [i, a, o, s] = .vundefined ∧
    lazyIqlListFn g [i, a, o, s] = .vstr "" ∧
    (memoizedCall st (lazyIqlFn g) [i, a, o, s] now).2.2 = true ∧
    (memoizedCall (memoizedCall st (lazyIqlFn g) [i, a, o, s] now).1
        (lazyIqlFn g) [i, a, o, s] now2).2.2 = true ∧
    (memoizedCall st (lazyIqlListFn g) [i, a, o, s] now).2.2 = true ∧
    (memoizedCall (memoizedCall st (lazyIqlListFn g) [i, a, o, s] now).1
        (lazyIqlListFn g) [i, a, o, s] now2).2.2 = true := by
  have h1 : lazyIqlFn g [i, a, o, s] = .vundefined := by
    simp [lazyIqlFn, underscoreLAZYIQL, hg]
  have h2 : lazyIqlListFn g [i, a, o, s] = .vstr "" := by
    simp [lazyIqlListFn, underscoreLAZYIQL_LIST, hg]
    rfl
  have c1 := memoizedCall_invokes_of_falsy st (lazyIqlFn g) [i, a, o, s] now hst
  have s1 := memoizedCall_stores st (lazyIqlFn g) [i, a, o, s] now c1
  have c2 := memoizedCall_invokes_of_falsy
    (memoizedCall st (lazyIqlFn g) [i, a, o, s] now).1 (lazyIqlFn g)
    [i, a, o, s] now2
    (fun e he => by rw [s1] at he; cases he; simp [h1, truthy])
  have c1L := memoizedCall_invokes_of_falsy st (lazyIqlListFn g)
    [i, a, o, s] now hst
  have s1L := memoizedCall_stores st (lazyIqlListFn g) [i, a, o, s] now c1L
  have c2L := memoizedCall_invokes_of_falsy
    (memoizedCall st (lazyIqlListFn g) [i, a, o, s] now).1 (lazyIqlListFn g)
    [i, a, o, s] now2
    (fun e he => by rw [s1L] at he; cases he; simp [h2, truthy])
  exact ⟨h1, h2, c1, c2, c1L, c2L⟩

/-- Witness for C10: the constant-empty resolution on a fresh cache,
two calls at times 0 and 1. -/
theorem C10_falsy_results_reinvoke_witness :
    lazyIqlFn (fun _ _ _ _ => []) [.vnull, .vnull, .vnull, .vnull]
      = .vundefined ∧
    lazyIqlListFn (fun _ _ _ _ => []) [.vnull, .vnull, .vnull, .vnull]
      = .vstr "" ∧
    (memoizedCall (memoizeInit []) (lazyIqlFn (fun _ _ _ _ => []))
      [.vnull, .vnull, .vnull, .vnull] 0).2.2 = true ∧
    (memoizedCall (memoizedCall (memoizeInit [])
        (lazyIqlFn (fun _ _ _ _ => []))
        [.vnull, .vnull, .vnull, .vnull] 0).1
      (lazyIqlFn (fun _ _ _ _ => []))
      [.vnull, .vnull, .vnull, .vnull] 1).2.2 = true ∧
    (memoizedCall (memoizeInit []) (lazyIqlListFn (fun _ _ _ _ => []))
      [.vnull, .vnull, .vnull, .vnull] 0).2.2 = true ∧
    (memoizedCall (memoizedCall (memoizeInit [])
        (lazyIqlListFn (fun _ _ _ _ => []))
        [.vnull, .vnull, .vnull, .vnull] 0).1
      (lazyIqlListFn (fun _ _ _ _ => []))
      [.vnull, .vnull, .vnull, .vnull] 1).2.2 = true :=
  C10_falsy_results_reinvoke (fun _ _ _ _ => []) .vnull .vnull .vnull .vnull
    (memoizeInit []) 0 1 rfl
    (fun e he => by simp [memoizeInit, mapGet] at he)

end IqlFunctions
